import Mathlib

/-!
Verification of the SimpleFIN-to-ledger sync tool.

Shallow embedding of the Go sources (`simplefin.go`, `sync.go`, `config.go`,
`main.go`).  Network calls are modelled by explicit oracles (a function from
the request parameters to the observed response), the process clock by
explicit `now` / `yearAgo` / `cachedAt` parameters, JSON (un)marshalling of
the persisted state files by a parse oracle, and `log.Fatalf` (which kills
the process) by an `aborted` flag in the result together with the list of
durable side effects (file writes) performed before the abort.

The `for currentStartDate < totalEndDate` paging loop of
`FetchSimpleFINData` is modelled by structural recursion on an explicit
iteration budget (`fuel`).  The wrappers instantiate the budget at
`(rangeEnd - rangeStart).toNat`, which the partition theorems below show is
always enough for the loop to reach its genuine exit condition
(`currentStartDate >= totalEndDate`), so the budget never truncates a run
of the source loop.
-/

namespace SfinSync

/-- 90 days in seconds, the SimpleFIN per-request range cap
(`maxRangeSeconds` in `simplefin.go`). -/
def maxRangeSeconds : Int := 90 * 24 * 60 * 60

/-- `SFTransaction` from `simplefin.go`: one SimpleFIN transaction. -/
structure SFTransaction where
  id : String
  amount : String
  description : String
  transactedAt : Int
  deriving DecidableEq, Repr

/-- `SFOrg` from `simplefin.go`: the financial institution. -/
structure SFOrg where
  domain : String
  sfinURL : String
  deriving DecidableEq, Repr

/-- `SFAccount` from `simplefin.go`: one SimpleFIN account. -/
structure SFAccount where
  id : String
  name : String
  org : SFOrg
  balance : String
  availableBalance : String
  balanceDate : Nat
  transactions : List SFTransaction
  deriving DecidableEq, Repr

/-- `SimpleFINResponse` from `simplefin.go`. -/
structure SimpleFINResponse where
  errors : List String
  accounts : List SFAccount
  deriving DecidableEq, Repr

/-- Outcome of one windowed page request (`http.Get(txURL)` followed by
`json.Unmarshal` in `FetchSimpleFINData`): a network error or non-200
status, a response body that fails to decode, or a decoded response. -/
inductive PageResult where
  | netErr : PageResult
  | decodeErr : PageResult
  | ok : SimpleFINResponse → PageResult
  deriving DecidableEq, Repr

/-- Whether a page request decoded successfully. -/
def PageResult.isOk : PageResult → Bool
  | .ok _ => true
  | _ => false

/-- The transactions a decoded page contributes: `accountResp.Accounts[0].Transactions`
when the response carries at least one account, nothing otherwise. -/
def pageChunk : PageResult → List SFTransaction
  | .ok resp =>
    match resp.accounts with
    | [] => []
    | a :: _ => a.transactions
  | _ => []

/-- The `[currentStartDate, currentEndDate)` sub-windows generated by the
paging loop of `FetchSimpleFINData`: starting from `s`, each window ends at
`min (s + maxRangeSeconds) e`, and the loop runs while `s < e`.  Structural
recursion on an iteration budget; see the module comment. -/
def windowsGo : Nat → Int → Int → List (Int × Int)
  | 0, _, _ => []
  | fuel + 1, s, e =>
    if s < e then
      (s, min (s + maxRangeSeconds) e) :: windowsGo fuel (min (s + maxRangeSeconds) e) e
    else []

/-- The sub-windows requested for the range `[s, e)`, with the iteration
budget instantiated so that it never cuts the loop short. -/
def windows (s e : Int) : List (Int × Int) :=
  windowsGo (e - s).toNat s e

/-- Result of the paging loop (`for currentStartDate < totalEndDate` in
`FetchSimpleFINData`): the accumulated transaction list, the page requests
issued in order, whether the whole requested window was fetched (`complete`
is false exactly when a decode error broke the loop early), and whether a
network error or non-200 status hit `log.Fatalf` (`fatal`). -/
structure PageLoopResult where
  txs : List SFTransaction
  requests : List (Int × Int)
  complete : Bool
  fatal : Bool
  deriving DecidableEq, Repr

/-- The paging loop of `FetchSimpleFINData` for one account.  `fetch s e` is
the observed outcome of `GET .../accounts?account=<id>&start-date=s&end-date=e`
(the URL omits a parameter equal to 0; the window itself is unchanged).
A network error or non-200 status runs `log.Fatalf` (modelled by `fatal`);
a body that fails to decode logs a warning and breaks the loop (`complete`
is false); a decoded page appends `accounts[0].Transactions` when the
response carries an account.  Structural recursion on the iteration budget. -/
def pageLoopGo (fetch : Int → Int → PageResult) (totalEnd : Int) :
    Nat → Int → List SFTransaction → PageLoopResult
  | 0, _, acc => { txs := acc, requests := [], complete := true, fatal := false }
  | fuel + 1, curStart, acc =>
    if curStart < totalEnd then
      let curEnd := min (curStart + maxRangeSeconds) totalEnd
      match fetch curStart curEnd with
      | .netErr =>
        { txs := acc, requests := [(curStart, curEnd)], complete := false, fatal := true }
      | .decodeErr =>
        { txs := acc, requests := [(curStart, curEnd)], complete := false, fatal := false }
      | .ok resp =>
        let acc2 :=
          match resp.accounts with
          | [] => acc
          | a :: _ => acc ++ a.transactions
        let r := pageLoopGo fetch totalEnd fuel curEnd acc2
        { txs := r.txs, requests := (curStart, curEnd) :: r.requests,
          complete := r.complete, fatal := r.fatal }
    else { txs := acc, requests := [], complete := true, fatal := false }

/-- The paging loop over the whole range `[curStart, totalEnd)`, iteration
budget instantiated so that it never cuts the loop short. -/
def pageLoop (fetch : Int → Int → PageResult) (totalEnd curStart : Int)
    (acc : List SFTransaction) : PageLoopResult :=
  pageLoopGo fetch totalEnd (totalEnd - curStart).toNat curStart acc

/-- `AccountConfig` from `config.go`: per-account mapping entry. -/
structure AccountConfig where
  sureID : String
  name : String
  balanceOnly : Bool
  deriving DecidableEq, Repr

/-- `Config` from `config.go` (the fields the fetch engine reads).  The Go
`map[string]AccountConfig` is modelled as an association list. -/
structure Config where
  sureAPIKey : String
  sureBaseURL : String
  accessURL : String
  setupToken : String
  accountMap : List (String × AccountConfig)
  deriving DecidableEq, Repr

/-- `AccountSyncState` from the canonical (Unix-seconds) revision of
`sync.go`: the last-synced-through timestamp for one account. -/
structure AccountSyncState where
  lastSyncDate : Int
  deriving DecidableEq, Repr

/-- The in-memory `map[string]AccountSyncState`.  Go map lookup is function
application; a missing key is `none`. -/
def StateMap : Type := String → Option AccountSyncState

/-- Go map assignment `m[k] = v`. -/
def StateMap.set (m : StateMap) (k : String) (v : AccountSyncState) : StateMap :=
  fun x => if x = k then some v else m x

/-- The balance-only skip test of `FetchSimpleFINData`:
`accConfig, mapped := config.AccountMap[account.ID]; mapped && accConfig.BalanceOnly`. -/
def isBalanceOnly (config : Config) (accountID : String) : Bool :=
  match config.accountMap.lookup accountID with
  | some c => c.balanceOnly
  | none => false

/-- `getTransactionDateRange` from `simplefin.go`.  `now` is the
`time.Now().Unix()` reading taken for the end date and `yearAgo` the
`time.Now().AddDate(-1, 0, 0).Unix()` reading (one calendar year back). -/
def getTransactionDateRange (accountID : String) (syncState : StateMap)
    (now yearAgo : Int) : Int × Int :=
  match syncState accountID with
  | some st => if st.lastSyncDate ≠ 0 then (st.lastSyncDate, now) else (yearAgo, now)
  | none => (yearAgo, now)

/-- Outcome of one iteration of the account loop in `FetchSimpleFINData`:
either `log.Fatalf` killed the process during paging (`fatal`, carrying the
page requests issued first), or the iteration finished with the updated
account, the updated in-memory sync state, the snapshot-cache file writes
performed, the page requests issued, and whether the account's whole window
was fetched (false when a decode error broke the paging loop). -/
inductive AccountOutcome where
  | fatal (requests : List (Int × Int))
  | ok (acct : SFAccount) (syncState : StateMap)
      (cacheWrites : List (String × SFAccount × Int))
      (requests : List (Int × Int)) (complete : Bool)

/-- One iteration of the account loop of `FetchSimpleFINData`: skip the
account entirely when its mapping is flagged balance-only; otherwise page
through `getTransactionDateRange`, and — on any non-fatal outcome, even an
early decode break — set the account's sync state to the captured
`totalEndDate` and write the snapshot-cache file.  `cachedAt` is the
`time.Now()` reading used for the cache record's `FetchedAt` field (a later
clock reading than `now`). -/
def processAccount (config : Config) (fetch : String → Int → Int → PageResult)
    (now yearAgo cachedAt : Int) (syncState : StateMap) (acct : SFAccount) :
    AccountOutcome :=
  if isBalanceOnly config acct.id then
    .ok acct syncState [] [] true
  else
    let range := getTransactionDateRange acct.id syncState now yearAgo
    let r := pageLoop (fetch acct.id) range.2 range.1 acct.transactions
    if r.fatal then .fatal r.requests
    else
      let acct2 : SFAccount := { acct with transactions := r.txs }
      .ok acct2 (syncState.set acct.id { lastSyncDate := range.2 })
        [(acct.id, acct2, cachedAt)] r.requests r.complete

/-- Result of the whole account loop: the mutated `sfResp.Accounts`, the
in-memory sync state, the snapshot-cache writes performed (durable even when
the pass later aborts), the page requests issued tagged with their account
id, the accounts whose paging broke early on a decode error, and whether a
page failure aborted the process. -/
structure FetchPassResult where
  accounts : List SFAccount
  syncState : StateMap
  cacheWrites : List (String × SFAccount × Int)
  requests : List (String × Int × Int)
  incomplete : List String
  aborted : Bool

/-- The account loop of `FetchSimpleFINData`, processing the balances-only
response sequentially.  A fatal page failure stops the loop (the process
dies inside `log.Fatalf`), keeping the side effects performed up to that
point. -/
def fetchLoop (config : Config) (fetch : String → Int → Int → PageResult)
    (now yearAgo cachedAt : Int) :
    List SFAccount → StateMap → FetchPassResult
  | [], st =>
    { accounts := [], syncState := st, cacheWrites := [], requests := [],
      incomplete := [], aborted := false }
  | acct :: rest, st =>
    match processAccount config fetch now yearAgo cachedAt st acct with
    | .fatal reqs =>
      { accounts := [], syncState := st, cacheWrites := [],
        requests := reqs.map (fun w => (acct.id, w)),
        incomplete := [], aborted := true }
    | .ok acct2 st2 cw reqs complete =>
      let r := fetchLoop config fetch now yearAgo cachedAt rest st2
      { accounts := acct2 :: r.accounts, syncState := r.syncState,
        cacheWrites := cw ++ r.cacheWrites,
        requests := reqs.map (fun w => (acct.id, w)) ++ r.requests,
        incomplete := (if complete then [] else [acct.id]) ++ r.incomplete,
        aborted := r.aborted }

/-- Result of a whole `FetchSimpleFINData` call.  `savedSyncState` is the
content written to the cursor-store file by the single `SaveAccountSyncState`
call at the end of the pass; it is `none` when the pass aborted before
reaching that call (the file keeps its previous content). -/
structure FetchRunResult where
  pass : FetchPassResult
  savedSyncState : Option StateMap

/-- `FetchSimpleFINData` from `simplefin.go`, given the already-loaded sync
state (`LoadAccountSyncState`) and the decoded balances-only response. -/
def FetchSimpleFINData (config : Config) (fetch : String → Int → Int → PageResult)
    (now yearAgo cachedAt : Int) (initState : StateMap)
    (balances : List SFAccount) : FetchRunResult :=
  let r := fetchLoop config fetch now yearAgo cachedAt balances initState
  { pass := r, savedSyncState := if r.aborted then none else some r.syncState }

/-- Civil date (year, month, day) from a count of days since 1970-01-01,
proleptic Gregorian (Howard Hinnant's `civil_from_days` algorithm).  This
realises Go's `time.Unix(t, 0).Format("2006-01-02")` with the UTC zone
fixed as the rendering policy. -/
def civilFromDays (z0 : Int) : Int × Nat × Nat :=
  let z := z0 + 719468
  let era : Int := z.fdiv 146097
  let doe : Nat := (z - era * 146097).toNat
  let yoe : Nat := (doe - doe / 1460 + doe / 36524 - doe / 146096) / 365
  let y : Int := (yoe : Int) + era * 400
  let doy : Nat := doe - (365 * yoe + yoe / 4 - yoe / 100)
  let mp : Nat := (5 * doy + 2) / 153
  let d : Nat := doy - (153 * mp + 2) / 5 + 1
  let m : Nat := if mp < 10 then mp + 3 else mp - 9
  (if m ≤ 2 then y + 1 else y, m, d)

/-- Zero-pad a number below 100 to two digits, as Go's `"01"` / `"02"`
format verbs do. -/
def pad2 (n : Nat) : String :=
  if n < 10 then "0" ++ toString n else toString n

/-- Zero-pad a year to four digits, as Go's `"2006"` format verb does. -/
def pad4 (n : Int) : String :=
  if n < 0 then toString n
  else if n < 10 then "000" ++ toString n
  else if n < 100 then "00" ++ toString n
  else if n < 1000 then "0" ++ toString n
  else toString n

/-- `time.Unix(t, 0).Format("2006-01-02")` (UTC rendering policy): the
`YYYY-MM-DD` string for a Unix-seconds timestamp. -/
def formatDate (t : Int) : String :=
  let c := civilFromDays (t.fdiv 86400)
  pad4 c.1 ++ "-" ++ pad2 c.2.1 ++ "-" ++ pad2 c.2.2

/-- `MaybeTransaction` from `main.go`: the downstream ledger payload. -/
structure MaybeTransaction where
  accountID : String
  amount : String
  date : String
  name : String
  notes : String
  deriving DecidableEq, Repr

/-- The payload built for one transaction in the dispatch loop of `main`
(`main.go`): ledger account id from the mapping, amount and formatted date,
display name taken from the description, and a notes line embedding the
source transaction id. -/
def buildPayload (maybeAccountID : String) (tx : SFTransaction) : MaybeTransaction :=
  { accountID := maybeAccountID
    amount := tx.amount
    date := formatDate tx.transactedAt
    name := tx.description
    notes := "Imported via SimpleFIN. ID: " ++ tx.id }

/-- State of the dispatch loop: `state` is the in-memory processed-id map,
`persisted` the content of the `sync_state.json` file (rewritten by
`saveState` immediately after every delivery success), `calls` the delivery
calls issued in order (source id paired with the payload sent), `succs` the
ids whose delivery call returned success, and `count` is `newTxCount`. -/
structure DispatchState where
  state : List String
  persisted : List String
  calls : List (String × MaybeTransaction)
  succs : List String
  count : Nat
  deriving DecidableEq, Repr

/-- The dispatch state at pass start: the processed set loaded from disk,
with the file content identical to it. -/
def initDispatch (loaded : List String) : DispatchState :=
  { state := loaded, persisted := loaded, calls := [], succs := [], count := 0 }

/-- The body of the per-transaction dispatch loop in `main` (`main.go`):
skip an id already in the processed map; otherwise build the payload and
invoke `createMaybeTransaction`.  On failure, log and move on, changing no
state; on success, mark the id processed and save the full set immediately.
`deliver n` is the observed outcome of the pass's `n`-th delivery call. -/
def processTx (deliver : Nat → Bool) (maybeAccountID : String)
    (s : DispatchState) (tx : SFTransaction) : DispatchState :=
  if s.state.contains tx.id then s
  else
    let payload := buildPayload maybeAccountID tx
    if deliver s.calls.length then
      { state := s.state ++ [tx.id]
        persisted := s.state ++ [tx.id]
        calls := s.calls ++ [(tx.id, payload)]
        succs := s.succs ++ [tx.id]
        count := s.count + 1 }
    else
      { s with calls := s.calls ++ [(tx.id, payload)] }

/-- One iteration of the account loop in `main`: an account with no mapping
entry (auto-create declined) is skipped; otherwise every fetched transaction
runs through the dispatch body in fetch order. -/
def runAccount (deliver : Nat → Bool) (ledgerMap : List (String × String))
    (s : DispatchState) (acct : SFAccount) : DispatchState :=
  match ledgerMap.lookup acct.id with
  | none => s
  | some maybeAccountID => acct.transactions.foldl (processTx deliver maybeAccountID) s

/-- One full dispatch pass over the fetched accounts, starting from the
processed set loaded from `sync_state.json`. -/
def runPass (deliver : Nat → Bool) (ledgerMap : List (String × String))
    (accounts : List SFAccount) (loaded : List String) : DispatchState :=
  accounts.foldl (runAccount deliver ledgerMap) (initDispatch loaded)

/-- A sequence of dispatch passes with no crash in between: each pass loads
the processed set that the previous pass left on disk.  Returns the final
file content, all successful delivery ids, and all delivery-call ids, in
order. -/
def runPasses (ledgerMap : List (String × String)) :
    List ((Nat → Bool) × List SFAccount) → List String →
    List String × List String × List String
  | [], loaded => (loaded, [], [])
  | (deliver, accounts) :: rest, loaded =>
    let s := runPass deliver ledgerMap accounts loaded
    let r := runPasses ledgerMap rest s.persisted
    (r.1, s.succs ++ r.2.1, (s.calls.map Prod.fst) ++ r.2.2)

/-- Result of reading one persisted state file: missing (any `os.ReadFile`
error), or present with a body. -/
inductive FileRead where
  | missing : FileRead
  | content : String → FileRead
  deriving DecidableEq, Repr

/-- The shared shape of `LoadState` and `LoadAccountSyncState` in `sync.go`:
start from the empty map, and only when the file read succeeds run
`json.Unmarshal` — whose error is not inspected, so an unparseable body
leaves the map empty.  `json.Unmarshal` is abstracted by the `parse`
oracle. -/
def loadStore {α : Type} (r : FileRead)
    (parse : String → Option (List (String × α))) : List (String × α) :=
  match r with
  | .missing => []
  | .content body =>
    match parse body with
    | none => []
    | some m => m

/-- `LoadState` from `sync.go`: the processed-transaction map
(`map[string]bool`). -/
def LoadState (r : FileRead) (parse : String → Option (List (String × Bool))) :
    List (String × Bool) :=
  loadStore r parse

/-- `LoadAccountSyncState` from `sync.go` (canonical Unix-seconds
revision): the per-account cursor map. -/
def LoadAccountSyncState (r : FileRead)
    (parse : String → Option (List (String × AccountSyncState))) :
    List (String × AccountSyncState) :=
  loadStore r parse

/-- Invariant of the dispatch loop relative to the processed set `base`
loaded at pass start: the file content always equals the in-memory map (it
is rewritten immediately on every change); the in-memory map is exactly
`base` plus the ids delivered successfully so far; no id is delivered
successfully twice; and no delivery call is ever issued for an id that was
in `base`. -/
def DInv (base : List String) (s : DispatchState) : Prop :=
  s.persisted = s.state ∧
  (∀ x, x ∈ s.state ↔ x ∈ base ∨ x ∈ s.succs) ∧
  s.succs.Nodup ∧
  (∀ x ∈ s.succs, x ∉ base) ∧
  (∀ p ∈ s.calls, p.1 ∉ base)

/-- Frame relation between an account of the balances-only response and the
corresponding account of the fetch result: every field except the
transaction list is untouched, and the transaction list is only extended. -/
def accountFrame (a a2 : SFAccount) : Prop :=
  a2.id = a.id ∧ a2.name = a.name ∧ a2.org = a.org ∧ a2.balance = a.balance ∧
  a2.availableBalance = a.availableBalance ∧ a2.balanceDate = a.balanceDate ∧
  ∃ t, a2.transactions = a.transactions ++ t

/-- A concrete non-balance-only account used to exercise the fetch engine. -/
def c1Account : SFAccount :=
  { id := "a1", name := "Checking", org := { domain := "bank.example", sfinURL := "u" },
    balance := "100.00", availableBalance := "100.00", balanceDate := 1,
    transactions := [] }

/-- A mapping that maps `a1` to a ledger account without the balance-only flag. -/
def c1Config : Config :=
  { sureAPIKey := "k", sureBaseURL := "b", accessURL := "a", setupToken := "",
    accountMap := [("a1", { sureID := "m1", name := "Checking", balanceOnly := false })] }

/-- A page oracle whose first window (starting at 1000000) decodes and whose
second window returns a body that fails to decode. -/
def c1Fetch : String → Int → Int → PageResult := fun _ s _ =>
  if s = 1000000 then .ok { errors := [], accounts := [] } else .decodeErr

/-- Accounts for the two-account pass of the C2 scenario. -/
def c2A1 : SFAccount :=
  { id := "a1", name := "Checking", org := { domain := "bank.example", sfinURL := "u" },
    balance := "1.00", availableBalance := "1.00", balanceDate := 2,
    transactions := [] }

/-- Second account of the C2 scenario; its page request fails fatally. -/
def c2A2 : SFAccount :=
  { id := "a2", name := "Savings", org := { domain := "bank.example", sfinURL := "u" },
    balance := "2.00", availableBalance := "2.00", balanceDate := 2,
    transactions := [] }

/-- Mapping for the C2 scenario: both accounts mapped, neither balance-only. -/
def c2Config : Config :=
  { sureAPIKey := "k", sureBaseURL := "b", accessURL := "a", setupToken := "",
    accountMap := [("a1", { sureID := "m1", name := "Checking", balanceOnly := false }),
      ("a2", { sureID := "m2", name := "Savings", balanceOnly := false })] }

/-- Page oracle of the C2 scenario: account `a1` succeeds, account `a2` hits
a network error (non-success status), which is fatal. -/
def c2Fetch : String → Int → Int → PageResult := fun i _ _ =>
  if i = "a1" then .ok { errors := [], accounts := [] } else .netErr

/-- Cursor store at the start of the C2 scenario pass: both accounts have a
nonzero cursor, so each needs exactly one sub-window. -/
def c2Init : StateMap := fun i =>
  if i = "a1" then some { lastSyncDate := 2000000 }
  else if i = "a2" then some { lastSyncDate := 3000000 }
  else none

/-- Transaction whose delivery call fails in the C5 scenario. -/
def c5T1 : SFTransaction :=
  { id := "T1", amount := "-4.50", description := "COFFEE", transactedAt := 1709251200 }

/-- Transaction whose delivery call succeeds in the C5 scenario. -/
def c5T2 : SFTransaction :=
  { id := "T2", amount := "-10.00", description := "BOOKS", transactedAt := 1709337600 }

/-- Account carrying the two transactions of the C5 scenario. -/
def c5Acct : SFAccount :=
  { id := "acc", name := "Checking", org := { domain := "bank.example", sfinURL := "u" },
    balance := "0", availableBalance := "0", balanceDate := 3,
    transactions := [c5T1, c5T2] }

/-- A concrete stand-in for `json.Unmarshal` into `map[string]bool`: it
parses the body `"ok"` and rejects everything else. -/
def c6Parse : String → Option (List (String × Bool)) := fun body =>
  if body = "ok" then some [("t1", true)] else none

/-- Transaction with an empty description (C7 scenario), occurring at
2024-03-01T00:00:00Z. -/
def c7Tx : SFTransaction :=
  { id := "T9", amount := "5.00", description := "", transactedAt := 1709251200 }

theorem windowsGo_mem_bounds {fuel : Nat} {s e : Int} {w : Int × Int}
    (hw : w ∈ windowsGo fuel s e) :
    s ≤ w.1 ∧ w.1 < w.2 ∧ w.2 ≤ e ∧ w.2 = min (w.1 + maxRangeSeconds) e := by
  induction fuel generalizing s with
  | zero => simp [windowsGo] at hw
  | succ fuel ih =>
    simp only [windowsGo] at hw
    by_cases h : s < e
    · rw [if_pos h] at hw
      rcases List.mem_cons.mp hw with h1 | h2
      · subst h1
        refine ⟨le_refl _, ?_, ?_, rfl⟩
        · have : (0:Int) < maxRangeSeconds := by norm_num [maxRangeSeconds]
          simp only [lt_min_iff]
          omega
        · exact min_le_right _ _
      · have := ih h2
        have hs : s ≤ min (s + maxRangeSeconds) e := by
          have : (0:Int) < maxRangeSeconds := by norm_num [maxRangeSeconds]
          simp only [le_min_iff]
          omega
        exact ⟨le_trans hs this.1, this.2⟩
    · rw [if_neg h] at hw
      simp at hw

theorem windowsGo_chain (fuel : Nat) (s e : Int) :
    List.Chain' (fun p q : Int × Int => p.2 = q.1) (windowsGo fuel s e) := by
  induction fuel generalizing s with
  | zero => simp [windowsGo]
  | succ fuel ih =>
    simp only [windowsGo]
    by_cases h : s < e
    · rw [if_pos h]
      refine List.chain'_cons'.mpr ⟨?_, ih _⟩
      intro q hq
      cases fuel with
      | zero => simp [windowsGo] at hq
      | succ fuel =>
        simp only [windowsGo] at hq
        by_cases h2 : min (s + maxRangeSeconds) e < e
        · rw [if_pos h2] at hq
          simp only [List.head?_cons, Option.mem_def, Option.some.injEq] at hq
          rw [← hq]
        · rw [if_neg h2] at hq
          simp at hq
    · rw [if_neg h]
      simp

theorem windowsGo_first {fuel : Nat} {s e : Int} (hf : 0 < fuel) (h : s < e) :
    (windowsGo fuel s e).head? = some (s, min (s + maxRangeSeconds) e) := by
  cases fuel with
  | zero => omega
  | succ fuel => simp [windowsGo, if_pos h]

theorem windowsGo_last {fuel : Nat} {s e : Int}
    (hfuel : (e - s).toNat ≤ fuel) (h : s < e) :
    ((windowsGo fuel s e).getLast?).map Prod.snd = some e := by
  induction fuel generalizing s with
  | zero => omega
  | succ fuel ih =>
    have hM : (0:Int) < maxRangeSeconds := by norm_num [maxRangeSeconds]
    simp only [windowsGo, if_pos h]
    by_cases h2 : min (s + maxRangeSeconds) e < e
    · have hrec := ih (s := min (s + maxRangeSeconds) e) (by omega) h2
      rcases hl : windowsGo fuel (min (s + maxRangeSeconds) e) e with _ | ⟨b, t⟩
      · rw [hl] at hrec
        simp at hrec
      · rw [hl] at hrec
        rw [List.getLast?_cons_cons]
        exact hrec
    · have he : min (s + maxRangeSeconds) e = e := by omega
      cases fuel with
      | zero =>
        simp [windowsGo, he]
      | succ fuel =>
        have : ¬ (min (s + maxRangeSeconds) e < e) := h2
        simp [windowsGo, if_neg this, he]

theorem windows_mem_bounds {s e : Int} {w : Int × Int} (hw : w ∈ windows s e) :
    s ≤ w.1 ∧ w.1 < w.2 ∧ w.2 ≤ e ∧ w.2 = min (w.1 + maxRangeSeconds) e :=
  windowsGo_mem_bounds hw

theorem windows_chain (s e : Int) :
    List.Chain' (fun p q : Int × Int => p.2 = q.1) (windows s e) :=
  windowsGo_chain _ s e

theorem windows_first {s e : Int} (h : s < e) :
    (windows s e).head? = some (s, min (s + maxRangeSeconds) e) :=
  windowsGo_first (by omega) h

theorem windows_last {s e : Int} (h : s < e) :
    ((windows s e).getLast?).map Prod.snd = some e :=
  windowsGo_last (le_refl _) h

theorem windows_pairwise (s e : Int) :
    List.Pairwise (fun p q : Int × Int => p.2 ≤ q.1) (windows s e) := by
  unfold windows
  generalize (e - s).toNat = fuel
  induction fuel generalizing s with
  | zero => simp [windowsGo]
  | succ fuel ih =>
    simp only [windowsGo]
    by_cases h : s < e
    · rw [if_pos h]
      refine List.pairwise_cons.mpr ⟨?_, ih _⟩
      intro q hq
      exact (windowsGo_mem_bounds hq).1
    · rw [if_neg h]
      simp

theorem windows_length_365d :
    (windows 0 (365 * 86400)).length = 5 := by decide

theorem pageLoopGo_requests_windowsGo {fetch : Int → Int → PageResult}
    (hok : ∀ a b, (fetch a b).isOk = true) (e : Int) (fuel : Nat) :
    ∀ (s : Int) (acc : List SFTransaction),
      (pageLoopGo fetch e fuel s acc).requests = windowsGo fuel s e ∧
      (pageLoopGo fetch e fuel s acc).complete = true ∧
      (pageLoopGo fetch e fuel s acc).fatal = false := by
  induction fuel with
  | zero => intro s acc; simp [pageLoopGo, windowsGo]
  | succ fuel ih =>
    intro s acc
    by_cases h : s < e
    · have hfe := hok s (min (s + maxRangeSeconds) e)
      rcases hf : fetch s (min (s + maxRangeSeconds) e) with _ | _ | resp
      · rw [hf] at hfe; simp [PageResult.isOk] at hfe
      · rw [hf] at hfe; simp [PageResult.isOk] at hfe
      · simp only [pageLoopGo, windowsGo, if_pos h, hf]
        rcases resp.accounts with _ | ⟨a, rest⟩
        · simpa using ih (min (s + maxRangeSeconds) e) acc
        · simpa using ih (min (s + maxRangeSeconds) e) (acc ++ a.transactions)
    · simp [pageLoopGo, windowsGo, if_neg h]

theorem pageLoopGo_txs_append (fetch : Int → Int → PageResult) (e : Int) (fuel : Nat) :
    ∀ (s : Int) (acc : List SFTransaction),
      ∃ t, (pageLoopGo fetch e fuel s acc).txs = acc ++ t := by
  induction fuel with
  | zero => intro s acc; exact ⟨[], by simp [pageLoopGo]⟩
  | succ fuel ih =>
    intro s acc
    by_cases h : s < e
    · rcases hf : fetch s (min (s + maxRangeSeconds) e) with _ | _ | resp
      · exact ⟨[], by simp [pageLoopGo, if_pos h, hf]⟩
      · exact ⟨[], by simp [pageLoopGo, if_pos h, hf]⟩
      · rcases ha : resp.accounts with _ | ⟨a, rest⟩
        · obtain ⟨t, ht⟩ := ih (min (s + maxRangeSeconds) e) acc
          exact ⟨t, by simp [pageLoopGo, if_pos h, hf, ha, ht]⟩
        · obtain ⟨t, ht⟩ := ih (min (s + maxRangeSeconds) e) (acc ++ a.transactions)
          refine ⟨a.transactions ++ t, ?_⟩
          simp only [pageLoopGo, if_pos h, hf, ha, ht]
          simp
    · exact ⟨[], by simp [pageLoopGo, if_neg h]⟩

theorem pageLoopGo_txs_flatten {fetch : Int → Int → PageResult}
    (hok : ∀ a b, (fetch a b).isOk = true) (e : Int) (fuel : Nat) :
    ∀ (s : Int) (acc : List SFTransaction),
      (pageLoopGo fetch e fuel s acc).txs =
        acc ++ ((pageLoopGo fetch e fuel s acc).requests.map
          (fun w => pageChunk (fetch w.1 w.2))).flatten := by
  induction fuel with
  | zero => intro s acc; simp [pageLoopGo]
  | succ fuel ih =>
    intro s acc
    by_cases h : s < e
    · have hfe := hok s (min (s + maxRangeSeconds) e)
      rcases hf : fetch s (min (s + maxRangeSeconds) e) with _ | _ | resp
      · rw [hf] at hfe; simp [PageResult.isOk] at hfe
      · rw [hf] at hfe; simp [PageResult.isOk] at hfe
      · rcases ha : resp.accounts with _ | ⟨a, rest⟩
        · have := ih (min (s + maxRangeSeconds) e) acc
          simp only [pageLoopGo, if_pos h, hf, ha]
          simp only [List.map_cons, List.flatten_cons, hf, pageChunk, ha]
          simpa using this
        · have := ih (min (s + maxRangeSeconds) e) (acc ++ a.transactions)
          simp only [pageLoopGo, if_pos h, hf, ha]
          simp only [List.map_cons, List.flatten_cons, hf, pageChunk, ha]
          simpa using this
    · simp [pageLoopGo, if_neg h]

theorem pageLoopGo_empty_page_step {fetch : Int → Int → PageResult}
    {s e : Int} {fuel : Nat} {acc : List SFTransaction} (h : s < e)
    (hchunk : pageChunk (fetch s (min (s + maxRangeSeconds) e)) = [])
    (hok : (fetch s (min (s + maxRangeSeconds) e)).isOk = true) :
    (pageLoopGo fetch e (fuel + 1) s acc).txs =
      (pageLoopGo fetch e fuel (min (s + maxRangeSeconds) e) acc).txs := by
  rcases hf : fetch s (min (s + maxRangeSeconds) e) with _ | _ | resp
  · rw [hf] at hok; simp [PageResult.isOk] at hok
  · rw [hf] at hok; simp [PageResult.isOk] at hok
  · rcases ha : resp.accounts with _ | ⟨a, rest⟩
    · simp [pageLoopGo, if_pos h, hf, ha]
    · rw [hf] at hchunk
      simp only [pageChunk, ha] at hchunk
      simp [pageLoopGo, if_pos h, hf, ha, hchunk]

theorem getTransactionDateRange_snd (i : String) (st : StateMap) (now yearAgo : Int) :
    (getTransactionDateRange i st now yearAgo).2 = now := by
  unfold getTransactionDateRange
  rcases st i with _ | a
  · rfl
  · by_cases h : a.lastSyncDate = 0 <;> simp [h]

theorem getTransactionDateRange_cursor {i : String} {st : StateMap} {a : AccountSyncState}
    (now yearAgo : Int) (h : st i = some a) (hne : a.lastSyncDate ≠ 0) :
    getTransactionDateRange i st now yearAgo = (a.lastSyncDate, now) := by
  simp [getTransactionDateRange, h, hne]

theorem getTransactionDateRange_fresh {i : String} {st : StateMap}
    (now yearAgo : Int) (h : st i = none ∨ st i = some { lastSyncDate := 0 }) :
    getTransactionDateRange i st now yearAgo = (yearAgo, now) := by
  rcases h with h | h <;> simp [getTransactionDateRange, h]

theorem pageLoop_txs_append (fetch : Int → Int → PageResult) (e s : Int)
    (acc : List SFTransaction) : ∃ t, (pageLoop fetch e s acc).txs = acc ++ t :=
  pageLoopGo_txs_append fetch e _ s acc

theorem processAccount_balanceOnly {config : Config}
    {fetch : String → Int → Int → PageResult} {now yearAgo cachedAt : Int}
    {st : StateMap} {acct : SFAccount} (h : isBalanceOnly config acct.id = true) :
    processAccount config fetch now yearAgo cachedAt st acct =
      .ok acct st [] [] true := by
  simp [processAccount, h]

theorem processAccount_ok_inv {config : Config}
    {fetch : String → Int → Int → PageResult} {now yearAgo cachedAt : Int}
    {st : StateMap} {acct a2 : SFAccount} {st2 : StateMap}
    {cw : List (String × SFAccount × Int)} {reqs : List (Int × Int)} {c : Bool}
    (hbo : isBalanceOnly config acct.id = false)
    (h : processAccount config fetch now yearAgo cachedAt st acct =
      .ok a2 st2 cw reqs c) :
    st2 acct.id = some { lastSyncDate := now } ∧
    (∀ j, j ≠ acct.id → st2 j = st j) ∧
    a2.id = acct.id ∧ a2.name = acct.name ∧ a2.org = acct.org ∧
    a2.balance = acct.balance ∧ a2.availableBalance = acct.availableBalance ∧
    a2.balanceDate = acct.balanceDate ∧
    (∃ t, a2.transactions = acct.transactions ++ t) ∧
    cw = [(acct.id, a2, cachedAt)] := by
  unfold processAccount at h
  rw [hbo] at h
  simp only [Bool.false_eq_true, if_false] at h
  split at h
  · exact absurd h (by intro hcon; cases hcon)
  · obtain ⟨h1, h2, h3, _, _⟩ := AccountOutcome.ok.inj h
    subst h1 h2 h3
    have hsnd := getTransactionDateRange_snd acct.id st now yearAgo
    refine ⟨?_, ?_, rfl, rfl, rfl, rfl, rfl, rfl, ?_, rfl⟩
    · simp [StateMap.set, hsnd]
    · intro j hj
      simp [StateMap.set, hj]
    · rw [hsnd]
      exact pageLoop_txs_append _ _ _ _

theorem processAccount_fatal_state {config : Config}
    {fetch : String → Int → Int → PageResult} {now yearAgo cachedAt : Int}
    {st : StateMap} {acct : SFAccount} {reqs : List (Int × Int)}
    (h : processAccount config fetch now yearAgo cachedAt st acct = .fatal reqs) :
    isBalanceOnly config acct.id = false := by
  by_contra hbo
  rw [processAccount_balanceOnly (by revert hbo; cases isBalanceOnly config acct.id <;> simp)] at h
  cases h

theorem fetchLoop_syncState_balanceOnly {config : Config}
    {fetch : String → Int → Int → PageResult} {now yearAgo cachedAt : Int}
    {i : String} (hbo : isBalanceOnly config i = true) :
    ∀ (accounts : List SFAccount) (st : StateMap),
      (fetchLoop config fetch now yearAgo cachedAt accounts st).syncState i = st i := by
  intro accounts
  induction accounts with
  | nil => intro st; simp [fetchLoop]
  | cons acct rest ih =>
    intro st
    rcases hp : processAccount config fetch now yearAgo cachedAt st acct with
      reqs | ⟨a2, st2, cw, reqs, c⟩
    · simp [fetchLoop, hp]
    · simp only [fetchLoop, hp]
      rw [ih st2]
      by_cases hb : isBalanceOnly config acct.id = true
      · rw [processAccount_balanceOnly hb] at hp
        obtain ⟨_, h2, _, _, _⟩ := AccountOutcome.ok.inj hp
        rw [← h2]
      · have hbo2 : isBalanceOnly config acct.id = false := by
          revert hb; cases isBalanceOnly config acct.id <;> simp
        have hinv := processAccount_ok_inv hbo2 hp
        have hne : i ≠ acct.id := by
          intro he; rw [he] at hbo; rw [hbo] at hbo2; cases hbo2
        exact hinv.2.1 i hne

theorem fetchLoop_requests_balanceOnly {config : Config}
    {fetch : String → Int → Int → PageResult} {now yearAgo cachedAt : Int}
    {i : String} (hbo : isBalanceOnly config i = true) :
    ∀ (accounts : List SFAccount) (st : StateMap) (r : String × Int × Int),
      r ∈ (fetchLoop config fetch now yearAgo cachedAt accounts st).requests →
      r.1 ≠ i := by
  intro accounts
  induction accounts with
  | nil => intro st r hr; simp [fetchLoop] at hr
  | cons acct rest ih =>
    intro st r hr
    rcases hp : processAccount config fetch now yearAgo cachedAt st acct with
      reqs | ⟨a2, st2, cw, reqs, c⟩
    · simp only [fetchLoop, hp] at hr
      have hbo2 := processAccount_fatal_state hp
      simp only [List.mem_map] at hr
      obtain ⟨w, _, hw⟩ := hr
      rw [← hw]
      intro he
      have he2 : acct.id = i := he
      rw [he2] at hbo2
      rw [hbo] at hbo2
      cases hbo2
    · simp only [fetchLoop, hp, List.mem_append] at hr
      rcases hr with hr | hr
      · by_cases hb : isBalanceOnly config acct.id = true
        · rw [processAccount_balanceOnly hb] at hp
          obtain ⟨_, _, _, h4, _⟩ := AccountOutcome.ok.inj hp
          rw [← h4] at hr
          simp at hr
        · have hbo2 : isBalanceOnly config acct.id = false := by
            revert hb; cases isBalanceOnly config acct.id <;> simp
          simp only [List.mem_map] at hr
          obtain ⟨w, _, hw⟩ := hr
          rw [← hw]
          intro he
          have he2 : acct.id = i := he
          rw [he2] at hbo2
          rw [hbo] at hbo2
          cases hbo2
      · exact ih st2 r hr

theorem fetchLoop_cacheWrites_balanceOnly {config : Config}
    {fetch : String → Int → Int → PageResult} {now yearAgo cachedAt : Int}
    {i : String} (hbo : isBalanceOnly config i = true) :
    ∀ (accounts : List SFAccount) (st : StateMap) (w : String × SFAccount × Int),
      w ∈ (fetchLoop config fetch now yearAgo cachedAt accounts st).cacheWrites →
      w.1 ≠ i := by
  intro accounts
  induction accounts with
  | nil => intro st w hw; simp [fetchLoop] at hw
  | cons acct rest ih =>
    intro st w hw
    rcases hp : processAccount config fetch now yearAgo cachedAt st acct with
      reqs | ⟨a2, st2, cw, reqs, c⟩
    · simp [fetchLoop, hp] at hw
    · simp only [fetchLoop, hp, List.mem_append] at hw
      rcases hw with hw | hw
      · by_cases hb : isBalanceOnly config acct.id = true
        · rw [processAccount_balanceOnly hb] at hp
          obtain ⟨_, _, h3, _, _⟩ := AccountOutcome.ok.inj hp
          rw [← h3] at hw
          simp at hw
        · have hbo2 : isBalanceOnly config acct.id = false := by
            revert hb; cases isBalanceOnly config acct.id <;> simp
          have hinv := processAccount_ok_inv hbo2 hp
          rw [hinv.2.2.2.2.2.2.2.2.2] at hw
          simp only [List.mem_singleton] at hw
          rw [hw]
          intro he
          simp only at he
          rw [he] at hbo2
          rw [hbo] at hbo2
          cases hbo2
      · exact ih st2 w hw

theorem DInv_init (loaded : List String) : DInv loaded (initDispatch loaded) := by
  refine ⟨rfl, ?_, ?_, ?_, ?_⟩ <;> simp [initDispatch]

theorem DInv_processTx {base : List String} {s : DispatchState}
    (deliver : Nat → Bool) (maybeAccountID : String) (tx : SFTransaction)
    (h : DInv base s) : DInv base (processTx deliver maybeAccountID s tx) := by
  obtain ⟨hps, hiff, hnd, hsb, hcb⟩ := h
  unfold processTx
  by_cases hc : s.state.contains tx.id
  · rw [if_pos hc]
    exact ⟨hps, hiff, hnd, hsb, hcb⟩
  · rw [if_neg hc]
    have hmem : tx.id ∉ s.state := by
      intro hm
      exact hc (by simpa using hm)
    have hid_base : tx.id ∉ base := fun hb => hmem ((hiff tx.id).mpr (Or.inl hb))
    have hid_succs : tx.id ∉ s.succs := fun hb => hmem ((hiff tx.id).mpr (Or.inr hb))
    by_cases hd : deliver s.calls.length
    · rw [if_pos hd]
      refine ⟨rfl, ?_, ?_, ?_, ?_⟩
      · intro x
        simp only [List.mem_append, List.mem_singleton]
        constructor
        · rintro (hx | hx)
          · rcases (hiff x).mp hx with hb | hs
            · exact Or.inl hb
            · exact Or.inr (Or.inl hs)
          · exact Or.inr (Or.inr hx)
        · rintro (hb | hs | hx)
          · exact Or.inl ((hiff x).mpr (Or.inl hb))
          · exact Or.inl ((hiff x).mpr (Or.inr hs))
          · exact Or.inr hx
      · simpa [List.nodup_append] using ⟨hnd, hid_succs⟩
      · intro x hx
        rcases List.mem_append.mp hx with hx | hx
        · exact hsb x hx
        · rw [List.mem_singleton.mp hx]
          exact hid_base
      · intro p hp
        rcases List.mem_append.mp hp with hp | hp
        · exact hcb p hp
        · rw [List.mem_singleton.mp hp]
          exact hid_base
    · rw [if_neg hd]
      refine ⟨hps, hiff, hnd, hsb, ?_⟩
      intro p hp
      rcases List.mem_append.mp hp with hp | hp
      · exact hcb p hp
      · rw [List.mem_singleton.mp hp]
        exact hid_base

theorem DInv_foldl_processTx {base : List String} (deliver : Nat → Bool)
    (maybeAccountID : String) (txs : List SFTransaction) :
    ∀ (s : DispatchState), DInv base s →
      DInv base (txs.foldl (processTx deliver maybeAccountID) s) := by
  induction txs with
  | nil => intro s h; exact h
  | cons tx rest ih =>
    intro s h
    exact ih _ (DInv_processTx deliver maybeAccountID tx h)

theorem DInv_runAccount {base : List String} (deliver : Nat → Bool)
    (ledgerMap : List (String × String)) (acct : SFAccount) :
    ∀ (s : DispatchState), DInv base s →
      DInv base (runAccount deliver ledgerMap s acct) := by
  intro s h
  unfold runAccount
  rcases ledgerMap.lookup acct.id with _ | mid
  · exact h
  · exact DInv_foldl_processTx deliver mid acct.transactions s h

theorem DInv_runPass (deliver : Nat → Bool) (ledgerMap : List (String × String))
    (accounts : List SFAccount) (loaded : List String) :
    DInv loaded (runPass deliver ledgerMap accounts loaded) := by
  unfold runPass
  have : ∀ (l : List SFAccount) (s : DispatchState), DInv loaded s →
      DInv loaded (l.foldl (runAccount deliver ledgerMap) s) := by
    intro l
    induction l with
    | nil => intro s h; exact h
    | cons a rest ih =>
      intro s h
      exact ih _ (DInv_runAccount deliver ledgerMap a s h)
  exact this accounts _ (DInv_init loaded)

theorem runPass_base_not_called {deliver : Nat → Bool}
    {ledgerMap : List (String × String)} {accounts : List SFAccount}
    {loaded : List String} {x : String} (hx : x ∈ loaded) :
    x ∉ (runPass deliver ledgerMap accounts loaded).calls.map Prod.fst := by
  intro hmem
  obtain ⟨p, hp, hfst⟩ := List.mem_map.mp hmem
  exact (DInv_runPass deliver ledgerMap accounts loaded).2.2.2.2 p hp (hfst ▸ hx)

theorem runPass_base_mem_persisted {deliver : Nat → Bool}
    {ledgerMap : List (String × String)} {accounts : List SFAccount}
    {loaded : List String} {x : String} (hx : x ∈ loaded) :
    x ∈ (runPass deliver ledgerMap accounts loaded).persisted := by
  have h := DInv_runPass deliver ledgerMap accounts loaded
  rw [h.1]
  exact (h.2.1 x).mpr (Or.inl hx)

theorem runPass_succs_mem_persisted {deliver : Nat → Bool}
    {ledgerMap : List (String × String)} {accounts : List SFAccount}
    {loaded : List String} {x : String}
    (hx : x ∈ (runPass deliver ledgerMap accounts loaded).succs) :
    x ∈ (runPass deliver ledgerMap accounts loaded).persisted := by
  have h := DInv_runPass deliver ledgerMap accounts loaded
  rw [h.1]
  exact (h.2.1 x).mpr (Or.inr hx)

theorem runPasses_base_not_seen {ledgerMap : List (String × String)}
    (passes : List ((Nat → Bool) × List SFAccount)) :
    ∀ (loaded : List String) (x : String), x ∈ loaded →
      x ∉ (runPasses ledgerMap passes loaded).2.1 ∧
      x ∉ (runPasses ledgerMap passes loaded).2.2 ∧
      x ∈ (runPasses ledgerMap passes loaded).1 := by
  induction passes with
  | nil => intro loaded x hx; simpa [runPasses] using hx
  | cons pass rest ih =>
    intro loaded x hx
    obtain ⟨deliver, accounts⟩ := pass
    have hD := DInv_runPass deliver ledgerMap accounts loaded
    have hnext : x ∈ (runPass deliver ledgerMap accounts loaded).persisted :=
      runPass_base_mem_persisted hx
    have hrest := ih (runPass deliver ledgerMap accounts loaded).persisted x hnext
    refine ⟨?_, ?_, ?_⟩
    · simp only [runPasses, List.mem_append]
      rintro (hs | hs)
      · exact hD.2.2.2.1 x hs hx
      · exact hrest.1 hs
    · simp only [runPasses, List.mem_append]
      rintro (hs | hs)
      · exact runPass_base_not_called hx hs
      · exact hrest.2.1 hs
    · simpa only [runPasses] using hrest.2.2

theorem runPasses_succs_count {ledgerMap : List (String × String)}
    (passes : List ((Nat → Bool) × List SFAccount)) :
    ∀ (loaded : List String) (x : String),
      (runPasses ledgerMap passes loaded).2.1.count x ≤ 1 := by
  induction passes with
  | nil => intro loaded x; simp [runPasses]
  | cons pass rest ih =>
    intro loaded x
    obtain ⟨deliver, accounts⟩ := pass
    have hD := DInv_runPass deliver ledgerMap accounts loaded
    simp only [runPasses, List.count_append]
    by_cases hx : x ∈ (runPass deliver ledgerMap accounts loaded).succs
    · have h1 : (runPass deliver ledgerMap accounts loaded).succs.count x ≤ 1 :=
        List.nodup_iff_count_le_one.mp hD.2.2.1 x
      have h2 := (@runPasses_base_not_seen ledgerMap rest
        (runPass deliver ledgerMap accounts loaded).persisted x
        (runPass_succs_mem_persisted hx)).1
      rw [List.count_eq_zero_of_not_mem h2]
      omega
    · rw [List.count_eq_zero_of_not_mem hx]
      have := ih (runPass deliver ledgerMap accounts loaded).persisted x
      omega

theorem processTx_calls_succs {deliver : Nat → Bool}
    (hall : ∀ n, deliver n = true) (maybeAccountID : String)
    (tx : SFTransaction) (s : DispatchState)
    (h : s.calls.map Prod.fst = s.succs) :
    (processTx deliver maybeAccountID s tx).calls.map Prod.fst =
      (processTx deliver maybeAccountID s tx).succs := by
  unfold processTx
  by_cases hc : s.state.contains tx.id
  · rw [if_pos hc]; exact h
  · rw [if_neg hc, if_pos (hall s.calls.length)]
    simp [h]

theorem runPass_calls_succs {deliver : Nat → Bool}
    (hall : ∀ n, deliver n = true) (ledgerMap : List (String × String))
    (accounts : List SFAccount) (loaded : List String) :
    (runPass deliver ledgerMap accounts loaded).calls.map Prod.fst =
      (runPass deliver ledgerMap accounts loaded).succs := by
  unfold runPass
  have hacc : ∀ (l : List SFAccount) (s : DispatchState),
      s.calls.map Prod.fst = s.succs →
      (l.foldl (runAccount deliver ledgerMap) s).calls.map Prod.fst =
        (l.foldl (runAccount deliver ledgerMap) s).succs := by
    intro l
    induction l with
    | nil => intro s h; exact h
    | cons a rest ih =>
      intro s h
      refine ih _ ?_
      unfold runAccount
      rcases ledgerMap.lookup a.id with _ | mid
      · exact h
      · have htx : ∀ (txs : List SFTransaction) (s : DispatchState),
            s.calls.map Prod.fst = s.succs →
            (txs.foldl (processTx deliver mid) s).calls.map Prod.fst =
              (txs.foldl (processTx deliver mid) s).succs := by
          intro txs
          induction txs with
          | nil => intro s h; exact h
          | cons tx rest2 ih2 =>
            intro s h
            exact ih2 _ (processTx_calls_succs hall mid tx s h)
        exact htx a.transactions s h
  exact hacc accounts _ rfl

theorem runPasses_calls_count {ledgerMap : List (String × String)}
    (passes : List ((Nat → Bool) × List SFAccount))
    (hall : ∀ p ∈ passes, ∀ n, p.1 n = true) :
    ∀ (loaded : List String) (x : String),
      (runPasses ledgerMap passes loaded).2.2.count x ≤ 1 := by
  have heq : ∀ (ps : List ((Nat → Bool) × List SFAccount)),
      (∀ p ∈ ps, ∀ n, p.1 n = true) → ∀ (loaded : List String),
      (runPasses ledgerMap ps loaded).2.2 = (runPasses ledgerMap ps loaded).2.1 := by
    intro ps
    induction ps with
    | nil => intro _ loaded; simp [runPasses]
    | cons pass rest ih =>
      intro hps loaded
      obtain ⟨deliver, accounts⟩ := pass
      simp only [runPasses]
      rw [runPass_calls_succs (hps _ (List.mem_cons_self _ _)) ledgerMap accounts loaded,
        ih (fun p hp => hps p (List.mem_cons_of_mem _ hp)) _]
  intro loaded x
  rw [heq passes hall loaded]
  exact runPasses_succs_count passes loaded x

theorem processAccount_frame {config : Config}
    {fetch : String → Int → Int → PageResult} {now yearAgo cachedAt : Int}
    {st : StateMap} {acct a2 : SFAccount} {st2 : StateMap}
    {cw : List (String × SFAccount × Int)} {reqs : List (Int × Int)} {c : Bool}
    (h : processAccount config fetch now yearAgo cachedAt st acct =
      .ok a2 st2 cw reqs c) : accountFrame acct a2 := by
  by_cases hbo : isBalanceOnly config acct.id = true
  · rw [processAccount_balanceOnly hbo] at h
    obtain ⟨h1, _, _, _, _⟩ := AccountOutcome.ok.inj h
    subst h1
    exact ⟨rfl, rfl, rfl, rfl, rfl, rfl, [], by simp⟩
  · have hbo2 : isBalanceOnly config acct.id = false := by
      revert hbo; cases isBalanceOnly config acct.id <;> simp
    have hinv := processAccount_ok_inv hbo2 h
    exact ⟨hinv.2.2.1, hinv.2.2.2.1, hinv.2.2.2.2.1, hinv.2.2.2.2.2.1,
      hinv.2.2.2.2.2.2.1, hinv.2.2.2.2.2.2.2.1, hinv.2.2.2.2.2.2.2.2.1⟩

theorem fetchLoop_accounts_frame (config : Config)
    (fetch : String → Int → Int → PageResult) (now yearAgo cachedAt : Int) :
    ∀ (accounts : List SFAccount) (st : StateMap),
      (fetchLoop config fetch now yearAgo cachedAt accounts st).aborted = false →
      List.Forall₂ accountFrame accounts
        (fetchLoop config fetch now yearAgo cachedAt accounts st).accounts := by
  intro accounts
  induction accounts with
  | nil => intro st _; simp [fetchLoop]
  | cons acct rest ih =>
    intro st hab
    rcases hp : processAccount config fetch now yearAgo cachedAt st acct with
      reqs | ⟨a2, st2, cw, reqs, c⟩
    · simp [fetchLoop, hp] at hab
    · simp only [fetchLoop, hp] at hab ⊢
      exact List.Forall₂.cons (processAccount_frame hp) (ih st2 hab)

theorem fetchLoop_accounts_balanceOnly {config : Config}
    {fetch : String → Int → Int → PageResult} {now yearAgo cachedAt : Int}
    {i : String} (hbo : isBalanceOnly config i = true) :
    ∀ (accounts : List SFAccount) (st : StateMap),
      (fetchLoop config fetch now yearAgo cachedAt accounts st).aborted = false →
      ∀ a ∈ accounts, a.id = i →
        a ∈ (fetchLoop config fetch now yearAgo cachedAt accounts st).accounts := by
  intro accounts
  induction accounts with
  | nil => intro st _ a ha; simp at ha
  | cons acct rest ih =>
    intro st hab a ha hai
    rcases hp : processAccount config fetch now yearAgo cachedAt st acct with
      reqs | ⟨a2, st2, cw, reqs, c⟩
    · simp [fetchLoop, hp] at hab
    · simp only [fetchLoop, hp] at hab ⊢
      rcases List.mem_cons.mp ha with ha | ha
      · subst ha
        have hb2 : isBalanceOnly config a.id = true := by rw [hai]; exact hbo
        rw [processAccount_balanceOnly hb2] at hp
        obtain ⟨h1, _, _, _, _⟩ := AccountOutcome.ok.inj hp
        subst h1
        exact List.mem_cons_self _ _
      · exact List.mem_cons_of_mem _ (ih st2 hab a ha hai)

theorem processTx_persisted_eq_state {deliver : Nat → Bool} {mid : String}
    {s : DispatchState} {tx : SFTransaction} (h : s.persisted = s.state) :
    (processTx deliver mid s tx).persisted = (processTx deliver mid s tx).state := by
  unfold processTx
  by_cases hc : s.state.contains tx.id
  · rw [if_pos hc]; exact h
  · rw [if_neg hc]
    by_cases hd : deliver s.calls.length
    · rw [if_pos hd]
    · rw [if_neg hd]; exact h

/-- C3: for every account and every range with `rangeStart < rangeEnd`, the
paging loop issues one request per sub-window `[s, min (s + 90d) rangeEnd)`
(when every page decodes), each sub-window spans at most 90 days and is
nonempty, consecutive sub-windows are contiguous and non-overlapping, the
first starts at `rangeStart` and the last ends at `rangeEnd` (so together
they exactly partition the range), and a 365-day range yields exactly
`ceil (365 / 90) = 5` requests. -/
theorem claim_C3_window_partition :
    (∀ (fetch : Int → Int → PageResult) (s e : Int) (acc : List SFTransaction),
      (∀ a b, (fetch a b).isOk = true) →
      (pageLoop fetch e s acc).requests = windows s e ∧
      (pageLoop fetch e s acc).complete = true ∧
      (pageLoop fetch e s acc).fatal = false) ∧
    (∀ (s e : Int), ∀ w ∈ windows s e,
      s ≤ w.1 ∧ w.1 < w.2 ∧ w.2 ≤ e ∧
      w.2 = min (w.1 + maxRangeSeconds) e ∧ w.2 - w.1 ≤ maxRangeSeconds) ∧
    (∀ s e : Int,
      List.Chain' (fun p q : Int × Int => p.2 = q.1) (windows s e) ∧
      List.Pairwise (fun p q : Int × Int => p.2 ≤ q.1) (windows s e)) ∧
    (∀ s e : Int, s < e →
      (windows s e).head?.map Prod.fst = some s ∧
      (windows s e).getLast?.map Prod.snd = some e) ∧
    (windows 0 (365 * 86400)).length = 5 := by
  refine ⟨?_, ?_, ?_, ?_, windows_length_365d⟩
  · intro fetch s e acc hok
    exact pageLoopGo_requests_windowsGo hok e _ s acc
  · intro s e w hw
    obtain ⟨h1, h2, h3, h4⟩ := windows_mem_bounds hw
    refine ⟨h1, h2, h3, h4, ?_⟩
    rw [h4]
    have : min (w.1 + maxRangeSeconds) e ≤ w.1 + maxRangeSeconds := min_le_left _ _
    omega
  · intro s e
    exact ⟨windows_chain s e, windows_pairwise s e⟩
  · intro s e h
    constructor
    · rw [windows_first h]
      rfl
    · exact windows_last h

/-- Witness for C3 at a concrete input: an all-decoding page oracle over the
365-day range `[0, 365 * 86400)` issues exactly the 5 partition windows. -/
theorem claim_C3_window_partition_witness :
    (pageLoop (fun _ _ => PageResult.ok { errors := [], accounts := [] })
        (365 * 86400) 0 []).requests = windows 0 (365 * 86400) ∧
    (windows 0 (365 * 86400)).length = 5 :=
  ⟨(claim_C3_window_partition.1 (fun _ _ => PageResult.ok { errors := [], accounts := [] })
      0 (365 * 86400) [] (fun _ _ => rfl)).1,
    claim_C3_window_partition.2.2.2.2⟩

/-- C8: for an account that is not balance-only, the fetch range is
`(cursor, now)` when a nonzero cursor exists and `(yearAgo, now)` otherwise
(`yearAgo` being the clock reading one year before now), and on any
non-fatal outcome the account's new cursor is exactly the captured
`rangeEnd` of that range computation — which equals the `now` read at range
computation, independent of the later clock reading `cachedAt`. -/
theorem claim_C8_range_and_cursor :
    (∀ (i : String) (st : StateMap) (now yearAgo : Int) (a : AccountSyncState),
      st i = some a → a.lastSyncDate ≠ 0 →
      getTransactionDateRange i st now yearAgo = (a.lastSyncDate, now)) ∧
    (∀ (i : String) (st : StateMap) (now yearAgo : Int),
      st i = none ∨ st i = some { lastSyncDate := 0 } →
      getTransactionDateRange i st now yearAgo = (yearAgo, now)) ∧
    (∀ (config : Config) (fetch : String → Int → Int → PageResult)
      (now yearAgo cachedAt : Int) (st : StateMap) (acct a2 : SFAccount)
      (st2 : StateMap) (cw : List (String × SFAccount × Int))
      (reqs : List (Int × Int)) (c : Bool),
      isBalanceOnly config acct.id = false →
      processAccount config fetch now yearAgo cachedAt st acct = .ok a2 st2 cw reqs c →
      st2 acct.id =
        some { lastSyncDate := (getTransactionDateRange acct.id st now yearAgo).2 } ∧
      (getTransactionDateRange acct.id st now yearAgo).2 = now) := by
  refine ⟨?_, ?_, ?_⟩
  · intro i st now yearAgo a h hne
    exact getTransactionDateRange_cursor now yearAgo h hne
  · intro i st now yearAgo h
    exact getTransactionDateRange_fresh now yearAgo h
  · intro config fetch now yearAgo cachedAt st acct a2 st2 cw reqs c hbo h
    have hsnd := getTransactionDateRange_snd acct.id st now yearAgo
    rw [hsnd]
    exact ⟨(processAccount_ok_inv hbo h).1, rfl⟩

/-- Witness for C8 at concrete inputs: a nonzero cursor 500 with now 900
yields the range `(500, 900)`, and processing the `a1` account (no prior
cursor, clock 900 / 100, cache clock 901) leaves its cursor at exactly 900. -/
theorem claim_C8_range_and_cursor_witness :
    getTransactionDateRange "x" (fun _ => some { lastSyncDate := 500 }) 900 100 =
      (500, 900) ∧
    (StateMap.set (fun _ => none) "a1" { lastSyncDate := 900 }) "a1" =
      some { lastSyncDate := (getTransactionDateRange "a1" (fun _ => none) 900 100).2 } :=
  ⟨claim_C8_range_and_cursor.1 "x" (fun _ => some { lastSyncDate := 500 }) 900 100
      { lastSyncDate := 500 } rfl (by decide),
    (claim_C8_range_and_cursor.2.2 c1Config (fun _ _ _ => .ok { errors := [], accounts := [] })
      900 100 901 (fun _ => none)
      c1Account c1Account (StateMap.set (fun _ => none) "a1" { lastSyncDate := 900 })
      [("a1", c1Account, 901)] [(100, 900)] true rfl (by rfl)).1⟩

/-- C9: an account whose mapping is flagged balance-only gets no windowed
transaction request, keeps its cursor untouched, gets no snapshot-cache
write, and — when the pass completes — still appears in the result exactly
as the balances-only call returned it (its balance included). -/
theorem claim_C9_balance_only_exclusion :
    ∀ (config : Config) (fetch : String → Int → Int → PageResult)
      (now yearAgo cachedAt : Int) (initState : StateMap)
      (balances : List SFAccount) (i : String),
      isBalanceOnly config i = true →
      (fetchLoop config fetch now yearAgo cachedAt balances initState).syncState i =
        initState i ∧
      (∀ q ∈ (fetchLoop config fetch now yearAgo cachedAt balances initState).requests,
        q.1 ≠ i) ∧
      (∀ w ∈ (fetchLoop config fetch now yearAgo cachedAt balances initState).cacheWrites,
        w.1 ≠ i) ∧
      ((fetchLoop config fetch now yearAgo cachedAt balances initState).aborted = false →
        ∀ a ∈ balances, a.id = i →
          a ∈ (fetchLoop config fetch now yearAgo cachedAt balances initState).accounts) := by
  intro config fetch now yearAgo cachedAt initState balances i hbo
  exact ⟨fetchLoop_syncState_balanceOnly hbo balances initState,
    fun q hq => fetchLoop_requests_balanceOnly hbo balances initState q hq,
    fun w hw => fetchLoop_cacheWrites_balanceOnly hbo balances initState w hw,
    fun hab a ha hai => fetchLoop_accounts_balanceOnly hbo balances initState hab a ha hai⟩

/-- Witness for C9 at a concrete input: with `a1` flagged balance-only and a
page oracle that would fail every request, the single-account pass issues no
request, leaves the cursor store untouched, and returns the account with its
balance exactly as the balances-only call supplied it. -/
theorem claim_C9_balance_only_exclusion_witness :
    (fetchLoop
      { sureAPIKey := "k", sureBaseURL := "b", accessURL := "a", setupToken := "",
        accountMap := [("a1", { sureID := "m1", name := "Checking", balanceOnly := true })] }
      (fun _ _ _ => PageResult.netErr) 900 100 901 [c1Account] (fun _ => none)).syncState
        "a1" = none ∧
    ((fetchLoop
      { sureAPIKey := "k", sureBaseURL := "b", accessURL := "a", setupToken := "",
        accountMap := [("a1", { sureID := "m1", name := "Checking", balanceOnly := true })] }
      (fun _ _ _ => PageResult.netErr) 900 100 901 [c1Account] (fun _ => none)).aborted
        = false →
      c1Account ∈ (fetchLoop
        { sureAPIKey := "k", sureBaseURL := "b", accessURL := "a", setupToken := "",
          accountMap := [("a1", { sureID := "m1", name := "Checking", balanceOnly := true })] }
        (fun _ _ _ => PageResult.netErr) 900 100 901 [c1Account] (fun _ => none)).accounts) :=
  ⟨(claim_C9_balance_only_exclusion
      { sureAPIKey := "k", sureBaseURL := "b", accessURL := "a", setupToken := "",
        accountMap := [("a1", { sureID := "m1", name := "Checking", balanceOnly := true })] }
      (fun _ _ _ => PageResult.netErr) 900 100 901 (fun _ => none) [c1Account] "a1"
      (by decide)).1,
    fun hab =>
      (claim_C9_balance_only_exclusion
        { sureAPIKey := "k", sureBaseURL := "b", accessURL := "a", setupToken := "",
          accountMap := [("a1", { sureID := "m1", name := "Checking", balanceOnly := true })] }
        (fun _ _ _ => PageResult.netErr) 900 100 901 (fun _ => none) [c1Account] "a1"
        (by decide)).2.2.2 hab c1Account (List.mem_singleton.mpr rfl) rfl⟩

/-- C10: when the pass completes, each result account differs from its
balances-only original only in the transaction field, which is extended by
the concatenation of the page contributions in the order the pages were
fetched; every other field (id, name, org, balance, available balance,
balance-as-of) is returned exactly as received, and an empty page leaves the
accumulator unchanged. -/
theorem claim_C10_frame_and_append :
    (∀ (config : Config) (fetch : String → Int → Int → PageResult)
      (now yearAgo cachedAt : Int) (balances : List SFAccount) (st : StateMap),
      (fetchLoop config fetch now yearAgo cachedAt balances st).aborted = false →
      List.Forall₂ accountFrame balances
        (fetchLoop config fetch now yearAgo cachedAt balances st).accounts) ∧
    (∀ (fetch : Int → Int → PageResult) (e s : Int) (acc : List SFTransaction),
      (∀ a b, (fetch a b).isOk = true) →
      (pageLoop fetch e s acc).txs =
        acc ++ ((pageLoop fetch e s acc).requests.map
          (fun w => pageChunk (fetch w.1 w.2))).flatten) ∧
    (∀ (fetch : Int → Int → PageResult) (e s : Int) (acc : List SFTransaction),
      ∃ t, (pageLoop fetch e s acc).txs = acc ++ t) ∧
    (∀ (fetch : Int → Int → PageResult) (s e : Int) (fuel : Nat)
      (acc : List SFTransaction), s < e →
      pageChunk (fetch s (min (s + maxRangeSeconds) e)) = [] →
      (fetch s (min (s + maxRangeSeconds) e)).isOk = true →
      (pageLoopGo fetch e (fuel + 1) s acc).txs =
        (pageLoopGo fetch e fuel (min (s + maxRangeSeconds) e) acc).txs) := by
  refine ⟨?_, ?_, ?_, ?_⟩
  · intro config fetch now yearAgo cachedAt balances st hab
    exact fetchLoop_accounts_frame config fetch now yearAgo cachedAt balances st hab
  · intro fetch e s acc hok
    exact pageLoopGo_txs_flatten hok e _ s acc
  · intro fetch e s acc
    exact pageLoop_txs_append fetch e s acc
  · intro fetch s e fuel acc h hchunk hok
    exact pageLoopGo_empty_page_step h hchunk hok

/-- Witness for C10 at a concrete input: a completed single-account pass
over an all-empty-page oracle returns the account unchanged and related to
its original by the frame relation. -/
theorem claim_C10_frame_and_append_witness :
    List.Forall₂ accountFrame [c1Account]
      (fetchLoop c1Config (fun _ _ _ => PageResult.ok { errors := [], accounts := [] })
        900 100 901 [c1Account] (fun _ => none)).accounts ∧
    (pageLoop (fun _ _ => PageResult.ok { errors := [], accounts := [] }) 900 100
      []).txs =
      [] ++ ((pageLoop (fun _ _ => PageResult.ok { errors := [], accounts := [] })
        900 100 []).requests.map
          (fun w => pageChunk ((fun _ _ => PageResult.ok { errors := [], accounts := [] } :
            Int → Int → PageResult) w.1 w.2))).flatten :=
  ⟨(claim_C10_frame_and_append.1 c1Config
      (fun _ _ _ => PageResult.ok { errors := [], accounts := [] }) 900 100 901
      [c1Account] (fun _ => none) (by rfl)),
    claim_C10_frame_and_append.2.1
      (fun _ _ => PageResult.ok { errors := [], accounts := [] }) 900 100 []
      (fun _ _ => rfl)⟩

/-- C1: evaluation of the code at the failing input.  Account `a1` has no
prior cursor, so its window is `[1000000, 10000000)` (two sub-windows); the
first page decodes and the second page's body fails to decode, so the
paging loop breaks with the window not fully fetched (`incomplete` lists
`a1`) — yet the pass completes, the in-memory cursor for `a1` is advanced
to the captured `rangeEnd` 10000000, and that value is durably written by
the end-of-pass save.  The claim (and the spec) require the cursor not to
advance here. -/
theorem claim_C1_cursor_advances_on_decode_break :
    (FetchSimpleFINData c1Config c1Fetch 10000000 1000000 10000005
      (fun _ => none) [c1Account]).pass.incomplete = ["a1"] ∧
    (FetchSimpleFINData c1Config c1Fetch 10000000 1000000 10000005
      (fun _ => none) [c1Account]).pass.aborted = false ∧
    (FetchSimpleFINData c1Config c1Fetch 10000000 1000000 10000005
      (fun _ => none) [c1Account]).pass.requests =
        [("a1", 1000000, 8776000), ("a1", 8776000, 10000000)] ∧
    (FetchSimpleFINData c1Config c1Fetch 10000000 1000000 10000005
      (fun _ => none) [c1Account]).pass.syncState "a1" =
        some { lastSyncDate := 10000000 } ∧
    ((FetchSimpleFINData c1Config c1Fetch 10000000 1000000 10000005
      (fun _ => none) [c1Account]).savedSyncState.map (fun m => m "a1")) =
        some (some { lastSyncDate := 10000000 }) := by
  refine ⟨rfl, rfl, by decide, by decide, by decide⟩

/-- C2, counterexample: account `a1` completes its whole window, then
account `a2`'s page request hits a network error, so the pass aborts — but
contrary to the claim, `a1`'s advanced cursor is not durably persisted: the
cursor-store file is never written during the pass (`savedSyncState` is
`none`; only the in-memory map, lost with the process, holds the
advancement), even though `a1`'s snapshot cache write did happen. -/
theorem claim_C2_counterexample :
    (FetchSimpleFINData c2Config c2Fetch 9000000 1000 9000001 c2Init
      [c2A1, c2A2]).pass.aborted = true ∧
    (FetchSimpleFINData c2Config c2Fetch 9000000 1000 9000001 c2Init
      [c2A1, c2A2]).pass.syncState "a1" = some { lastSyncDate := 9000000 } ∧
    (FetchSimpleFINData c2Config c2Fetch 9000000 1000 9000001 c2Init
      [c2A1, c2A2]).pass.cacheWrites.map (fun w => w.1) = ["a1"] ∧
    (FetchSimpleFINData c2Config c2Fetch 9000000 1000 9000001 c2Init
      [c2A1, c2A2]).savedSyncState = none := by
  refine ⟨rfl, by decide, by decide, rfl⟩

/-- C2, amended: a page-request failure (network error or non-success
status) aborts the whole pass, and earlier fully-completed accounts keep
their snapshot-cache writes (performed during the pass) and their in-memory
cursor advancement — but the cursor store is written to disk only by the
single save at the end of a pass, so an aborted pass durably persists no
cursor advancement at all: `savedSyncState` is `none` exactly when the pass
aborted, and otherwise carries the final in-memory map. -/
theorem claim_C2_amended_durability :
    (∀ (config : Config) (fetch : String → Int → Int → PageResult)
      (now yearAgo cachedAt : Int) (initState : StateMap)
      (balances : List SFAccount),
      ((FetchSimpleFINData config fetch now yearAgo cachedAt initState
        balances).pass.aborted = true →
        (FetchSimpleFINData config fetch now yearAgo cachedAt initState
          balances).savedSyncState = none) ∧
      ((FetchSimpleFINData config fetch now yearAgo cachedAt initState
        balances).pass.aborted = false →
        (FetchSimpleFINData config fetch now yearAgo cachedAt initState
          balances).savedSyncState =
          some (FetchSimpleFINData config fetch now yearAgo cachedAt initState
            balances).pass.syncState)) ∧
    ((FetchSimpleFINData c2Config c2Fetch 9000000 1000 9000001 c2Init
      [c2A1, c2A2]).pass.aborted = true ∧
     (FetchSimpleFINData c2Config c2Fetch 9000000 1000 9000001 c2Init
      [c2A1, c2A2]).pass.cacheWrites.map (fun w => w.1) = ["a1"]) := by
  constructor
  · intro config fetch now yearAgo cachedAt initState balances
    constructor
    · intro hab
      unfold FetchSimpleFINData
      simp only
      rw [show (fetchLoop config fetch now yearAgo cachedAt balances
        initState).aborted = true from hab]
      rfl
    · intro hab
      unfold FetchSimpleFINData
      simp only
      rw [show (fetchLoop config fetch now yearAgo cachedAt balances
        initState).aborted = false from hab]
      rfl
  · exact ⟨rfl, by decide⟩

/-- Witness for the amended C2 at the concrete two-account scenario: the
aborted pass leaves the cursor-store file unwritten. -/
theorem claim_C2_amended_durability_witness :
    (FetchSimpleFINData c2Config c2Fetch 9000000 1000 9000001 c2Init
      [c2A1, c2A2]).savedSyncState = none :=
  (claim_C2_amended_durability.1 c2Config c2Fetch 9000000 1000 9000001 c2Init
    [c2A1, c2A2]).1 rfl

/-- C4: the dispatch loop delivers each transaction id at most once across
any number of chained passes.  Specifically: (a) an id in the loaded
processed set is never the subject of a delivery call; (b) the in-memory
processed set is exactly the loaded set plus the ids whose delivery call
returned success — an id enters it only strictly after a success; (c) every
single step keeps the persisted file identical to the in-memory set (the
full set is saved immediately after each success, never batched), and so
does a whole pass; (d) across chained passes (each loading what the
previous one persisted — no crash), every id has at most one successful
delivery; and (e) when every delivery call succeeds (normal operation),
every id has at most one delivery call altogether. -/
theorem claim_C4_at_most_once :
    (∀ (deliver : Nat → Bool) (ledgerMap : List (String × String))
      (accounts : List SFAccount) (loaded : List String) (x : String),
      x ∈ loaded →
      x ∉ (runPass deliver ledgerMap accounts loaded).calls.map Prod.fst) ∧
    (∀ (deliver : Nat → Bool) (ledgerMap : List (String × String))
      (accounts : List SFAccount) (loaded : List String) (x : String),
      x ∈ (runPass deliver ledgerMap accounts loaded).state ↔
        x ∈ loaded ∨ x ∈ (runPass deliver ledgerMap accounts loaded).succs) ∧
    (∀ (deliver : Nat → Bool) (mid : String) (s : DispatchState)
      (tx : SFTransaction), s.persisted = s.state →
      (processTx deliver mid s tx).persisted = (processTx deliver mid s tx).state) ∧
    (∀ (deliver : Nat → Bool) (ledgerMap : List (String × String))
      (accounts : List SFAccount) (loaded : List String),
      (runPass deliver ledgerMap accounts loaded).persisted =
        (runPass deliver ledgerMap accounts loaded).state) ∧
    (∀ (ledgerMap : List (String × String))
      (passes : List ((Nat → Bool) × List SFAccount)) (loaded : List String)
      (x : String), (runPasses ledgerMap passes loaded).2.1.count x ≤ 1) ∧
    (∀ (ledgerMap : List (String × String))
      (passes : List ((Nat → Bool) × List SFAccount)) (loaded : List String)
      (x : String), (∀ p ∈ passes, ∀ n, p.1 n = true) →
      (runPasses ledgerMap passes loaded).2.2.count x ≤ 1) := by
  refine ⟨?_, ?_, ?_, ?_, ?_, ?_⟩
  · intro deliver ledgerMap accounts loaded x hx
    exact runPass_base_not_called hx
  · intro deliver ledgerMap accounts loaded x
    exact (DInv_runPass deliver ledgerMap accounts loaded).2.1 x
  · intro deliver mid s tx h
    exact processTx_persisted_eq_state h
  · intro deliver ledgerMap accounts loaded
    exact (DInv_runPass deliver ledgerMap accounts loaded).1
  · intro ledgerMap passes loaded x
    exact runPasses_succs_count passes loaded x
  · intro ledgerMap passes loaded x hall
    exact runPasses_calls_count passes hall loaded x

/-- Witness for C4 at a concrete input: with `T1` already processed, a pass
over an account carrying `T1` and `T2` (all deliveries succeeding) never
issues a call for `T1`, its final set is the loaded set plus its successes,
and two chained passes over the same data call `T2` at most once. -/
theorem claim_C4_at_most_once_witness :
    "T1" ∉ (runPass (fun _ => true) [("acc", "m1")] [c5Acct] ["T1"]).calls.map
      Prod.fst ∧
    ("T2" ∈ (runPass (fun _ => true) [("acc", "m1")] [c5Acct] ["T1"]).state ↔
      "T2" ∈ (["T1"] : List String) ∨
      "T2" ∈ (runPass (fun _ => true) [("acc", "m1")] [c5Acct] ["T1"]).succs) ∧
    (runPasses [("acc", "m1")] [(fun _ => true, [c5Acct]), (fun _ => true, [c5Acct])]
      []).2.2.count "T2" ≤ 1 :=
  ⟨claim_C4_at_most_once.1 (fun _ => true) [("acc", "m1")] [c5Acct] ["T1"] "T1"
      (by decide),
    claim_C4_at_most_once.2.1 (fun _ => true) [("acc", "m1")] [c5Acct] ["T1"] "T2",
    claim_C4_at_most_once.2.2.2.2.2 [("acc", "m1")]
      [(fun _ => true, [c5Acct]), (fun _ => true, [c5Acct])] [] "T2"
      (by
        intro p hp n
        rcases List.mem_cons.mp hp with h | h
        · rw [h]
        · rw [List.mem_singleton.mp h])⟩

/-- C5: a failed delivery call changes nothing except recording the call —
the id is not added to the processed set and nothing is persisted — and the
loop simply moves to the next transaction; in the concrete scenario where
`T1`'s call fails and `T2`'s call succeeds in the same account, `T1` stays
out of the processed set, `T2` enters it, both calls were issued, and the
pass runs to completion with one new transaction. -/
theorem claim_C5_failure_skips_and_continues :
    (∀ (deliver : Nat → Bool) (mid : String) (s : DispatchState)
      (tx : SFTransaction),
      s.state.contains tx.id = false →
      deliver s.calls.length = false →
      processTx deliver mid s tx =
        { s with calls := s.calls ++ [(tx.id, buildPayload mid tx)] }) ∧
    ((runPass (fun n => n == 1) [("acc", "m1")] [c5Acct] []).calls.map Prod.fst =
      ["T1", "T2"] ∧
     (runPass (fun n => n == 1) [("acc", "m1")] [c5Acct] []).state = ["T2"] ∧
     (runPass (fun n => n == 1) [("acc", "m1")] [c5Acct] []).persisted = ["T2"] ∧
     (runPass (fun n => n == 1) [("acc", "m1")] [c5Acct] []).succs = ["T2"] ∧
     (runPass (fun n => n == 1) [("acc", "m1")] [c5Acct] []).count = 1) := by
  constructor
  · intro deliver mid s tx hc hd
    unfold processTx
    rw [hc]
    simp only [Bool.false_eq_true, if_false, hd]
  · refine ⟨by decide, by decide, by decide, by decide, by decide⟩

/-- Witness for C5 at a concrete input: a failing delivery for `T1` from the
empty initial state only records the call. -/
theorem claim_C5_failure_skips_and_continues_witness :
    processTx (fun _ => false) "m1" (initDispatch []) c5T1 =
      { initDispatch [] with
        calls := (initDispatch []).calls ++ [("T1", buildPayload "m1" c5T1)] } :=
  claim_C5_failure_skips_and_continues.1 (fun _ => false) "m1" (initDispatch [])
    c5T1 rfl rfl

/-- C6, counterexample: loading the processed-set file from a present but
unparseable body returns the empty state and the process carries on (the
loader has no failure path at all — `json.Unmarshal`'s error is discarded),
exactly as for a missing file; the claim requires a hard process abort
instead. -/
theorem claim_C6_counterexample :
    c6Parse "garbage" = none ∧
    LoadState (.content "garbage") c6Parse = [] ∧
    LoadState .missing c6Parse = [] ∧
    LoadState (.content "ok") c6Parse = [("t1", true)] := by
  refine ⟨by decide, by decide, by decide, by decide⟩

/-- C6, amended: loading either persisted store from a missing file yields
empty state, and loading from a present but malformed (unparseable) file
also silently yields empty state — the unmarshal error is ignored, the
process is not aborted; a parseable file yields its parsed content. -/
theorem claim_C6_amended_silent_empty :
    (∀ (parse : String → Option (List (String × Bool))),
      LoadState .missing parse = []) ∧
    (∀ (parse : String → Option (List (String × Bool))) (body : String),
      parse body = none → LoadState (.content body) parse = []) ∧
    (∀ (parse : String → Option (List (String × Bool))) (body : String)
      (m : List (String × Bool)),
      parse body = some m → LoadState (.content body) parse = m) ∧
    (∀ (parse : String → Option (List (String × AccountSyncState))),
      LoadAccountSyncState .missing parse = []) ∧
    (∀ (parse : String → Option (List (String × AccountSyncState))) (body : String),
      parse body = none → LoadAccountSyncState (.content body) parse = []) ∧
    (∀ (parse : String → Option (List (String × AccountSyncState))) (body : String)
      (m : List (String × AccountSyncState)),
      parse body = some m → LoadAccountSyncState (.content body) parse = m) := by
  refine ⟨fun parse => rfl, ?_, ?_, fun parse => rfl, ?_, ?_⟩
  · intro parse body h
    simp [LoadState, loadStore, h]
  · intro parse body m h
    simp [LoadState, loadStore, h]
  · intro parse body h
    simp [LoadAccountSyncState, loadStore, h]
  · intro parse body m h
    simp [LoadAccountSyncState, loadStore, h]

/-- Witness for the amended C6 at a concrete input: the unparseable body
`"garbage"` loads as the empty processed set. -/
theorem claim_C6_amended_silent_empty_witness :
    LoadState (.content "garbage") c6Parse = [] :=
  claim_C6_amended_silent_empty.2.1 c6Parse "garbage" rfl

/-- C7, counterexample: the payload built for a transaction with an empty
description carries an empty display name — not, as the claim states, the
formatted date of its occurred-at timestamp (here `"2024-03-01"`). -/
theorem claim_C7_counterexample :
    c7Tx.description = "" ∧
    formatDate c7Tx.transactedAt = "2024-03-01" ∧
    (buildPayload "m1" c7Tx).name = "" ∧
    (buildPayload "m1" c7Tx).name ≠ formatDate c7Tx.transactedAt ∧
    (processTx (fun _ => true) "m1" (initDispatch []) c7Tx).calls =
      [("T9", buildPayload "m1" c7Tx)] := by
  refine ⟨rfl, by decide, rfl, by decide, by decide⟩

/-- C7, amended: every dispatched payload has its date equal to the
`YYYY-MM-DD` rendering of the transaction's Unix occurred-at timestamp, a
notes field embedding the source transaction id, and a display name equal
to the transaction's description unconditionally — an empty description
yields an empty display name, with no fallback to the formatted date. -/
theorem claim_C7_amended_payload_fields :
    ∀ (deliver : Nat → Bool) (mid : String) (s : DispatchState)
      (tx : SFTransaction),
      (buildPayload mid tx).accountID = mid ∧
      (buildPayload mid tx).amount = tx.amount ∧
      (buildPayload mid tx).date = formatDate tx.transactedAt ∧
      (buildPayload mid tx).notes = "Imported via SimpleFIN. ID: " ++ tx.id ∧
      (buildPayload mid tx).name = tx.description ∧
      (s.state.contains tx.id = false →
        (processTx deliver mid s tx).calls =
          s.calls ++ [(tx.id, buildPayload mid tx)]) := by
  intro deliver mid s tx
  refine ⟨rfl, rfl, rfl, rfl, rfl, ?_⟩
  intro hc
  unfold processTx
  rw [hc]
  simp only [Bool.false_eq_true, if_false]
  by_cases hd : deliver s.calls.length
  · rw [if_pos hd]
  · rw [if_neg hd]

/-- Witness for the amended C7 at a concrete input: the payload for the
empty-description transaction carries date `"2024-03-01"`, the id-bearing
notes line, and an empty name, and its delivery call is recorded. -/
theorem claim_C7_amended_payload_fields_witness :
    (buildPayload "m1" c7Tx).date = formatDate c7Tx.transactedAt ∧
    (buildPayload "m1" c7Tx).notes = "Imported via SimpleFIN. ID: " ++ c7Tx.id ∧
    (buildPayload "m1" c7Tx).name = c7Tx.description ∧
    (processTx (fun _ => true) "m1" (initDispatch []) c7Tx).calls =
      (initDispatch []).calls ++ [("T9", buildPayload "m1" c7Tx)] :=
  ⟨(claim_C7_amended_payload_fields (fun _ => true) "m1" (initDispatch []) c7Tx).2.2.1,
    (claim_C7_amended_payload_fields (fun _ => true) "m1" (initDispatch []) c7Tx).2.2.2.1,
    (claim_C7_amended_payload_fields (fun _ => true) "m1" (initDispatch []) c7Tx).2.2.2.2.1,
    (claim_C7_amended_payload_fields (fun _ => true) "m1" (initDispatch []) c7Tx).2.2.2.2.2
      rfl⟩

end SfinSync

